import Mathlib

/-!
Verification of the project-scoped RBAC core of the `sgp` application
(models `Proyecto`/`Role`/membership and the forms `RoleForm`,
`UserRoleForm`, `AgregarMiembroForm` in `sgp/forms.py`, plus the model
method `Proyecto.crear_roles_predeterminados` in `sgp/models.py`).

The embedding is shallow: users, projects and roles are identified by
natural-number ids, a role's capability set is a `List Cap` with
membership semantics, and the persistent database is a `State` record
holding the role table and the membership table.  Django model methods
become Lean functions on `State`.
-/

/-- The four project-scoped capability codes of the permission catalog,
plus the implicit `vista` capability granted to every member.  Taken from
`Proyecto.Meta.permissions` in `sgp/models.py` and migration
`0002_auto_20210926_1103.py` (which adds `vista`). -/
inductive Cap where
  | administrar_equipo
  | gestionar_proyecto
  | pila_producto
  | desarrollo
  | vista
deriving DecidableEq, Repr

/-- The catalog query `PermissionCatalog.projectCapabilities()`: the project-scoped codes
excluding `vista`, in catalog order.  This is what
`get_perms_for_model(Proyecto).exclude(codename='vista')` iterates over in
`RoleForm.save` (`sgp/forms.py`). -/
def projectCapabilities : List Cap :=
  [Cap.administrar_equipo, Cap.gestionar_proyecto, Cap.pila_producto, Cap.desarrollo]

/-- A role: id, name, owning project, and granted capability set
(`sgp/models.py`, `class Role`).  `vista` is never stored in `perms`; it
is implicit for members. -/
structure Role where
  rid : Nat
  name : String
  proyecto : Nat
  perms : List Cap
deriving DecidableEq, Repr

/-- A membership (the `participa` relation referenced by
`UserRoleForm` in `sgp/forms.py`): one user bound to one role within one
project. -/
structure Participa where
  user : Nat
  proyecto : Nat
  role : Nat
deriving DecidableEq, Repr

/-- The persistent state: user table, role table, membership table, and
a fresh-id counter for role creation. -/
structure State where
  users : List Nat
  roles : List Role
  memberships : List Participa
  nextRoleId : Nat
deriving DecidableEq, Repr

/-- Modelled from the spec: `Role.asignar_permiso` is called by
`RoleForm.save` (`sgp/forms.py` line 171) but its definition is not under
`src/`; per spec §4.2 `grant(capability)` adds a capability to the role's
set and is idempotent. -/
def asignar_permiso (r : Role) (c : Cap) : Role :=
  if c ∈ r.perms then r else { r with perms := c :: r.perms }

/-- Modelled from the spec: `Role.quitar_permiso` is called by
`RoleForm.save` (`sgp/forms.py` line 173) but its definition is not under
`src/`; per spec §4.2 `revoke(capability)` removes a capability and is
idempotent. -/
def quitar_permiso (r : Role) (c : Cap) : Role :=
  { r with perms := r.perms.filter (fun q => decide (q ≠ c)) }

/-- One iteration of the permission loop in `RoleForm.save`
(`sgp/forms.py` lines 169-173): grant the capability when the cleaned
form data has its box checked, revoke it otherwise. -/
def aplicar_permiso (cleaned : Cap → Bool) (r : Role) (c : Cap) : Role :=
  if cleaned c then asignar_permiso r c else quitar_permiso r c

/-- The form method `RoleForm.save` on a bound instance (`sgp/forms.py` lines 163-174).
`rolActual` is the id of the acting user's current role (the form's
`rol_actual` constructor argument), `desired` is the cleaned form data
for the four capability check-boxes.  When the edited instance is the
acting user's own role, `cleaned_data['administrar_equipo']` is forced to
`True` before the permission loop runs. -/
def roleFormSave (r : Role) (rolActual : Option Nat) (desired : Cap → Bool) : Role :=
  let cleaned : Cap → Bool :=
    if rolActual = some r.rid then
      fun c => if c = Cap.administrar_equipo then true else desired c
    else desired
  projectCapabilities.foldl (aplicar_permiso cleaned) r

/-- The role of a user's membership in a project, if any.  This is how
the view collaborator resolves the `rol_actual` argument of `RoleForm`;
modelled from the spec: the view code is not under `src/`, spec §4.3
step 1 resolves whether the acting user's current Membership in the
role's project points at the edited role. -/
def membershipRoleOf (s : State) (u p : Nat) : Option Nat :=
  (s.memberships.find? (fun m => decide (m.user = u) && decide (m.proyecto = p))).map
    (fun m => m.role)

/-- The operation `setRolePermissions(role, desiredCapabilities, actingUser)` (spec
§4.3): update the role with id `rid` through `RoleForm.save`, with
`rol_actual` resolved from the acting user's membership in the role's
project. -/
def setRolePermissions (s : State) (rid : Nat) (desired : Cap → Bool) (actingUser : Nat) :
    State :=
  { s with
    roles := s.roles.map (fun r =>
      if r.rid = rid then
        roleFormSave r (membershipRoleOf s actingUser r.proyecto) desired
      else r) }

/-- Look a role up by id. -/
def findRole (s : State) (rid : Nat) : Option Role :=
  s.roles.find? (fun r => decide (r.rid = rid))

/-- The domain error kinds of spec §7. -/
inductive Err where
  | InvalidCapability
  | RoleNotFound
  | AlreadyInitialized
  | RoleInUse
deriving DecidableEq, Repr

/-- The model method `Proyecto.crear_roles_predeterminados` (`sgp/models.py` lines 90-102):
creates the four default roles, granting each its fixed capability set
with `assign_perm`.  The method performs no initialized-before check; it
unconditionally creates four fresh roles owned by the project. -/
def crear_roles_predeterminados (s : State) (p : Nat) : State :=
  let r1 := asignar_permiso
    (asignar_permiso ⟨s.nextRoleId, "Scrum master", p, []⟩ Cap.administrar_equipo)
    Cap.gestionar_proyecto
  let r2 := asignar_permiso ⟨s.nextRoleId + 1, "Product owner", p, []⟩ Cap.pila_producto
  let r3 := asignar_permiso ⟨s.nextRoleId + 2, "Desarrolador", p, []⟩ Cap.desarrollo
  let r4 : Role := ⟨s.nextRoleId + 3, "Interesado", p, []⟩
  { s with roles := s.roles ++ [r1, r2, r3, r4], nextRoleId := s.nextRoleId + 4 }

/-- The roles owned by a project (`proyecto.role_set`). -/
def rolesOfProject (s : State) (p : Nat) : List Role :=
  s.roles.filter (fun r => decide (r.proyecto = p))

/-- Modelled from the spec: `Proyecto.asignar_rol(user, roleName)` is
called by `UserRoleForm.save` (`sgp/forms.py` line 246) and
`AgregarMiembroForm.save` (line 280) but its definition is not under
`src/`.  Per spec §4.3 `assignRole` resolves the role name within the
project (`RoleNotFound` if absent); when the user has no membership in
the project it creates one bound to that role, otherwise it replaces the
existing membership's role reference. -/
def asignar_rol (s : State) (u : Nat) (roleName : String) (p : Nat) : Except Err State :=
  match s.roles.find? (fun r => decide (r.proyecto = p) && decide (r.name = roleName)) with
  | none => Except.error Err.RoleNotFound
  | some r =>
    if s.memberships.any (fun m => decide (m.user = u) && decide (m.proyecto = p)) then
      Except.ok { s with
        memberships := s.memberships.map (fun m =>
          if m.user = u ∧ m.proyecto = p then { m with role := r.rid } else m) }
    else
      Except.ok { s with memberships := s.memberships ++ [⟨u, p, r.rid⟩] }

/-- Modelled from the spec: `Proyecto.quitar_rol(user)` is called by
`UserRoleForm.clean` (`sgp/forms.py` line 241) but its definition is not
under `src/`.  Per spec §4.3 `removeMembership` deletes the user's
membership in the project if present and is a no-op otherwise; it never
touches the user account or any role. -/
def quitar_rol (s : State) (u p : Nat) : State :=
  { s with
    memberships := s.memberships.filter (fun m =>
      !(decide (m.user = u) && decide (m.proyecto = p))) }

/-- Modelled from the spec: role deletion is offered by the role
administration page (`RoleForm` docstring) but the deleting code is not
under `src/`.  Per spec §4.3 `deleteRole` fails with `RoleInUse` if any
membership references the role and removes the role otherwise. -/
def deleteRole (s : State) (rid : Nat) : Except Err State :=
  if s.memberships.any (fun m => decide (m.role = rid)) then
    Except.error Err.RoleInUse
  else
    Except.ok { s with roles := s.roles.filter (fun r => !decide (r.rid = rid)) }

/-- Modelled from the spec: the `AuthorizationChecker` project-capability
query is not under `src/`.  Per spec §4.4, `vista` is granted to any user
with a membership in the project; any other capability requires the
membership's role to hold it; with no membership every project-scoped
capability is denied. -/
def hasProjectCapability (s : State) (u p : Nat) (c : Cap) : Bool :=
  match s.memberships.find? (fun m => decide (m.user = u) && decide (m.proyecto = p)) with
  | none => false
  | some m =>
    if c = Cap.vista then true
    else
      match findRole s m.role with
      | none => false
      | some r => decide (c ∈ r.perms)

/-- The queryset of the role-choice field built by
`UserRoleForm.__init__` (`sgp/forms.py` lines 212-224): when the form's
instance is the acting user, only the project's roles that hold
`administrar_equipo` are selectable; otherwise all of the project's
roles are. -/
def selectableRoles (s : State) (instanceUser usuarioActual p : Nat) : List Role :=
  if instanceUser = usuarioActual then
    s.roles.filter (fun r =>
      decide (r.proyecto = p) && decide (Cap.administrar_equipo ∈ r.perms))
  else
    s.roles.filter (fun r => decide (r.proyecto = p))

/-- The number of memberships a user holds in a project. -/
def countMemberships (s : State) (u p : Nat) : Nat :=
  s.memberships.countP (fun m => decide (m.user = u) && decide (m.proyecto = p))

/-- Run a sequence of `asignar_rol` calls, each given as
(user, role name, project); a failing call leaves the state unchanged. -/
def runAssigns (s : State) (ops : List (Nat × String × Nat)) : State :=
  ops.foldl (fun st op =>
    match asignar_rol st op.1 op.2.1 op.2.2 with
    | Except.ok st' => st'
    | Except.error _ => st) s

-- Concrete states used to instantiate the theorems with hypotheses.

/-- A sample role holding `administrar_equipo`. -/
def rolA : Role := ⟨1, "Scrum master", 0, [Cap.administrar_equipo, Cap.gestionar_proyecto]⟩

/-- A sample role without `administrar_equipo`. -/
def rolB : Role := ⟨2, "Desarrolador", 0, [Cap.desarrollo]⟩

/-- A sample role referenced by no membership. -/
def rolC : Role := ⟨3, "Interesado", 0, []⟩

/-- A sample state: project 0 with three roles; user 10 is a member with
role `rolA`, user 11 with role `rolB`, user 12 has no membership. -/
def stExample : State :=
  ⟨[10, 11, 12], [rolA, rolB, rolC], [⟨10, 0, 1⟩, ⟨11, 0, 2⟩], 5⟩

/-- The empty state. -/
def stEmpty : State := ⟨[], [], [], 0⟩

-- Basic lemmas about the permission loop.

theorem asignar_permiso_rid (r : Role) (c : Cap) : (asignar_permiso r c).rid = r.rid := by
  unfold asignar_permiso; split <;> rfl

theorem quitar_permiso_rid (r : Role) (c : Cap) : (quitar_permiso r c).rid = r.rid := rfl

theorem aplicar_permiso_rid (cleaned : Cap → Bool) (r : Role) (c : Cap) :
    (aplicar_permiso cleaned r c).rid = r.rid := by
  unfold aplicar_permiso; split
  · exact asignar_permiso_rid r c
  · exact quitar_permiso_rid r c

theorem foldl_aplicar_rid (cleaned : Cap → Bool) (l : List Cap) (r : Role) :
    (l.foldl (aplicar_permiso cleaned) r).rid = r.rid := by
  induction l generalizing r with
  | nil => rfl
  | cons x xs ih => simpa [List.foldl_cons, aplicar_permiso_rid] using ih (aplicar_permiso cleaned r x)

theorem roleFormSave_rid (r : Role) (a : Option Nat) (d : Cap → Bool) :
    (roleFormSave r a d).rid = r.rid := by
  unfold roleFormSave
  exact foldl_aplicar_rid _ _ r

theorem mem_asignar_permiso (r : Role) (x c : Cap) :
    c ∈ (asignar_permiso r x).perms ↔ (c = x ∨ c ∈ r.perms) := by
  unfold asignar_permiso
  split
  · constructor
    · exact Or.inr
    · rintro (rfl | h)
      · assumption
      · assumption
  · simp [List.mem_cons]

theorem mem_quitar_permiso (r : Role) (x c : Cap) :
    c ∈ (quitar_permiso r x).perms ↔ (c ≠ x ∧ c ∈ r.perms) := by
  unfold quitar_permiso
  simp [List.mem_filter, and_comm]

theorem mem_aplicar_permiso (cleaned : Cap → Bool) (r : Role) (x c : Cap) :
    c ∈ (aplicar_permiso cleaned r x).perms ↔
      (if c = x then cleaned x = true else c ∈ r.perms) := by
  unfold aplicar_permiso
  by_cases hc : c = x
  · subst hc
    split <;> simp_all [mem_asignar_permiso, mem_quitar_permiso]
  · split <;> simp_all [mem_asignar_permiso, mem_quitar_permiso]

theorem mem_foldl_aplicar (cleaned : Cap → Bool) (l : List Cap) (r : Role) (c : Cap) :
    c ∈ (l.foldl (aplicar_permiso cleaned) r).perms ↔
      (if c ∈ l then cleaned c = true else c ∈ r.perms) := by
  induction l generalizing r with
  | nil => simp
  | cons x xs ih =>
    rw [List.foldl_cons, ih]
    by_cases hxs : c ∈ xs
    · simp [hxs, List.mem_cons]
    · by_cases hx : c = x
      · subst hx
        simp [hxs, mem_aplicar_permiso]
      · simp [hxs, hx, mem_aplicar_permiso, List.mem_cons]

/-- Membership in the saved role's capability set, in terms of the
cleaned (possibly coerced) form data: every catalog capability ends up
granted iff its cleaned box is checked. -/
theorem mem_roleFormSave (r : Role) (a : Option Nat) (d : Cap → Bool) (c : Cap)
    (hc : c ∈ projectCapabilities) :
    (c ∈ (roleFormSave r a d).perms ↔
      (if a = some r.rid then
        (if c = Cap.administrar_equipo then true else d c) else d c) = true) := by
  unfold roleFormSave
  rw [mem_foldl_aplicar]
  simp only [hc, if_true]
  split <;> rfl

/-- In a role table with no duplicate ids, looking up a member's id finds
exactly that member. -/
theorem find?_rid_of_nodup (l : List Role) (r : Role)
    (hnd : (l.map Role.rid).Nodup) (hr : r ∈ l) :
    l.find? (fun x => decide (x.rid = r.rid)) = some r := by
  induction l with
  | nil => cases hr
  | cons a t ih =>
    rw [List.map_cons, List.nodup_cons] at hnd
    rcases List.mem_cons.mp hr with rfl | hrt
    · simp [List.find?_cons]
    · have hane : ¬(a.rid = r.rid) := by
        intro hcontra
        exact hnd.1 (hcontra ▸ List.mem_map_of_mem Role.rid hrt)
      rw [List.find?_cons_of_neg _ (by simpa using hane)]
      exact ih hnd.2 hrt

/-- The update `setRolePermissions` rewrites exactly the targeted role, through
`RoleForm.save` with `rol_actual` resolved from the acting user's
membership in that role's project. -/
theorem findRole_setRolePermissions (s : State) (r : Role) (d : Cap → Bool) (u : Nat)
    (hr : r ∈ s.roles) (hnd : (s.roles.map Role.rid).Nodup) :
    findRole (setRolePermissions s r.rid d u) r.rid =
      some (roleFormSave r (membershipRoleOf s u r.proyecto) d) := by
  unfold findRole setRolePermissions
  rw [List.find?_map]
  have hpred : ((fun x => decide (x.rid = r.rid)) ∘ fun x =>
      if x.rid = r.rid then roleFormSave x (membershipRoleOf s u x.proyecto) d else x) =
      fun x => decide (x.rid = r.rid) := by
    funext x
    by_cases hx : x.rid = r.rid
    · simp [Function.comp, hx, roleFormSave_rid]
    · simp [Function.comp, hx]
  rw [hpred, find?_rid_of_nodup s.roles r hnd hr]
  simp

/-- Claim C1: when the acting user's membership in the role's project
points at the edited role, `administrar_equipo` present in the current
set and omitted from the desired set is retained, while every other
catalog capability is granted iff it is desired. -/
theorem setRolePermissions_self_keeps_admin
    (s : State) (r : Role) (d : Cap → Bool) (u : Nat)
    (hr : r ∈ s.roles)
    (hnd : (s.roles.map Role.rid).Nodup)
    (hm : membershipRoleOf s u r.proyecto = some r.rid)
    (hcur : Cap.administrar_equipo ∈ r.perms)
    (hd : d Cap.administrar_equipo = false) :
    ∃ r', findRole (setRolePermissions s r.rid d u) r.rid = some r' ∧
      Cap.administrar_equipo ∈ r'.perms ∧
      ∀ c ∈ projectCapabilities, c ≠ Cap.administrar_equipo →
        (c ∈ r'.perms ↔ d c = true) := by
  refine ⟨roleFormSave r (membershipRoleOf s u r.proyecto) d,
    findRole_setRolePermissions s r d u hr hnd, ?_, ?_⟩
  · rw [mem_roleFormSave r _ d Cap.administrar_equipo (by decide), hm]
    simp
  · intro c hc hcne
    rw [mem_roleFormSave r _ d c hc, hm]
    simp [hcne]

/-- Claim C1 witness. -/
theorem setRolePermissions_self_keeps_admin_witness :
    ∃ r', findRole (setRolePermissions stExample rolA.rid (fun _ => false) 10) rolA.rid
        = some r' ∧
      Cap.administrar_equipo ∈ r'.perms ∧
      ∀ c ∈ projectCapabilities, c ≠ Cap.administrar_equipo →
        (c ∈ r'.perms ↔ (fun _ => false) c = true) :=
  setRolePermissions_self_keeps_admin stExample rolA (fun _ => false) 10
    (by decide) (by decide) (by decide) (by decide) rfl

/-- Claim C2: when the acting user's membership in the role's project
does not point at the edited role, the desired set is applied verbatim
over the whole catalog. -/
theorem setRolePermissions_other_applies_desired
    (s : State) (r : Role) (d : Cap → Bool) (v : Nat)
    (hr : r ∈ s.roles)
    (hnd : (s.roles.map Role.rid).Nodup)
    (hm : membershipRoleOf s v r.proyecto ≠ some r.rid) :
    ∃ r', findRole (setRolePermissions s r.rid d v) r.rid = some r' ∧
      ∀ c ∈ projectCapabilities, (c ∈ r'.perms ↔ d c = true) := by
  refine ⟨roleFormSave r (membershipRoleOf s v r.proyecto) d,
    findRole_setRolePermissions s r d v hr hnd, ?_⟩
  intro c hc
  rw [mem_roleFormSave r _ d c hc, if_neg hm]

/-- Claim C2 witness. -/
theorem setRolePermissions_other_applies_desired_witness :
    ∃ r', findRole (setRolePermissions stExample rolA.rid (fun _ => true) 11) rolA.rid
        = some r' ∧
      ∀ c ∈ projectCapabilities, (c ∈ r'.perms ↔ (fun _ => true) c = true) :=
  setRolePermissions_other_applies_desired stExample rolA (fun _ => true) 11
    (by decide) (by decide) (by decide)

/-- Claim C10: saving `RoleForm` on the acting user's own role always
leaves the role holding `administrar_equipo`, whatever the submitted
boxes and the previous capability set. -/
theorem roleFormSave_self_grants_admin (r : Role) (d : Cap → Bool) :
    Cap.administrar_equipo ∈ (roleFormSave r (some r.rid) d).perms := by
  rw [mem_roleFormSave r (some r.rid) d Cap.administrar_equipo (by decide)]
  simp

/-- Claim C3 counterexample: immediately after the bootstrap on a fresh
project, no role is named "Developer" (nor "Stakeholder"): the code
names the third and fourth default roles "Desarrolador" and
"Interesado". -/
theorem crear_roles_counterexample :
    ¬ ∃ r ∈ rolesOfProject (crear_roles_predeterminados stEmpty 7) 7,
        r.name = "Developer" ∨ r.name = "Stakeholder" := by
  decide

/-- Claim C3 amended: after the bootstrap on a project owning no roles,
the project owns exactly four roles named "Scrum master", "Product
owner", "Desarrolador" and "Interesado" with the fixed capability sets,
and exactly one of them holds `administrar_equipo`. -/
theorem crear_roles_predeterminados_spec (s : State) (p : Nat)
    (h : rolesOfProject s p = []) :
    (rolesOfProject (crear_roles_predeterminados s p) p).map
        (fun r => (r.name, projectCapabilities.filter (fun c => decide (c ∈ r.perms)))) =
      [("Scrum master", [Cap.administrar_equipo, Cap.gestionar_proyecto]),
       ("Product owner", [Cap.pila_producto]),
       ("Desarrolador", [Cap.desarrollo]),
       ("Interesado", [])] ∧
    ((rolesOfProject (crear_roles_predeterminados s p) p).filter
        (fun r => decide (Cap.administrar_equipo ∈ r.perms))).length = 1 := by
  unfold rolesOfProject at h ⊢
  unfold crear_roles_predeterminados
  simp only [List.filter_append, h, List.nil_append]
  constructor
  · simp [asignar_permiso, projectCapabilities, List.filter]
  · simp [asignar_permiso, List.filter]

/-- Claim C3 amended witness. -/
theorem crear_roles_predeterminados_spec_witness :
    (rolesOfProject (crear_roles_predeterminados stEmpty 7) 7).map
        (fun r => (r.name, projectCapabilities.filter (fun c => decide (c ∈ r.perms)))) =
      [("Scrum master", [Cap.administrar_equipo, Cap.gestionar_proyecto]),
       ("Product owner", [Cap.pila_producto]),
       ("Desarrolador", [Cap.desarrollo]),
       ("Interesado", [])] ∧
    ((rolesOfProject (crear_roles_predeterminados stEmpty 7) 7).filter
        (fun r => decide (Cap.administrar_equipo ∈ r.perms))).length = 1 :=
  crear_roles_predeterminados_spec stEmpty 7 (by decide)

/-- Claim C4 counterexample: a second bootstrap call on the same project
does not fail and does not leave the role set unchanged: the project
ends up owning eight roles, two of them named "Scrum master". -/
theorem crear_roles_twice_counterexample :
    (rolesOfProject
        (crear_roles_predeterminados (crear_roles_predeterminados stEmpty 7) 7) 7).length
        = 8 ∧
    ((rolesOfProject
        (crear_roles_predeterminados (crear_roles_predeterminados stEmpty 7) 7) 7).filter
        (fun r => decide (r.name = "Scrum master"))).length = 2 := by
  decide

/-- Claim C4 amended: `crear_roles_predeterminados` performs no
initialized-before check and raises no error: every call, including a
repeated one, adds exactly four more roles to the project. -/
theorem crear_roles_predeterminados_always_adds_four (s : State) (p : Nat) :
    (rolesOfProject (crear_roles_predeterminados s p) p).length =
      (rolesOfProject s p).length + 4 := by
  unfold rolesOfProject crear_roles_predeterminados
  simp [List.filter_append, asignar_permiso, List.filter]

/-- A single `asignar_rol` call, for any target user, role name and
project, preserves the at-most-one-membership bound for every
(user, project) pair: replacement maps the membership table without
changing user/project columns, and creation only fires when the user has
no membership in the project. -/
theorem countMemberships_asignar_rol (s s' : State) (u p u' p' : Nat) (n : String)
    (h : countMemberships s u p ≤ 1)
    (hs : asignar_rol s u' n p' = Except.ok s') :
    countMemberships s' u p ≤ 1 := by
  unfold asignar_rol at hs
  cases hfind : s.roles.find?
      (fun r => decide (r.proyecto = p') && decide (r.name = n)) with
  | none => rw [hfind] at hs; cases hs
  | some r =>
    rw [hfind] at hs
    dsimp only at hs
    by_cases hany : s.memberships.any
        (fun m => decide (m.user = u') && decide (m.proyecto = p')) = true
    · rw [if_pos hany] at hs
      cases hs
      unfold countMemberships
      simp only [List.countP_map]
      have : ((fun m => decide (m.user = u) && decide (m.proyecto = p)) ∘ fun m =>
          if m.user = u' ∧ m.proyecto = p' then { m with role := r.rid } else m) =
          fun m : Participa => decide (m.user = u) && decide (m.proyecto = p) := by
        funext m
        by_cases hm : m.user = u' ∧ m.proyecto = p' <;> simp [Function.comp, hm]
      rw [this]
      exact h
    · rw [if_neg hany] at hs
      cases hs
      unfold countMemberships at h ⊢
      rw [List.countP_append]
      by_cases hup : u = u' ∧ p = p'
      · have hzero : s.memberships.countP
            (fun m => decide (m.user = u) && decide (m.proyecto = p)) = 0 := by
          rw [List.countP_eq_zero]
          intro m hm hpm
          apply hany
          rw [List.any_eq_true]
          refine ⟨m, hm, ?_⟩
          simp only [Bool.and_eq_true, decide_eq_true_eq] at hpm ⊢
          exact ⟨hup.1 ▸ hpm.1, hup.2 ▸ hpm.2⟩
        rw [hzero]
        have hle := List.countP_le_length
          (p := fun m : Participa => decide (m.user = u) && decide (m.proyecto = p))
          (l := [⟨u', p', r.rid⟩])
        simp only [List.length_singleton] at hle
        omega
      · have : List.countP (fun m => decide (m.user = u) && decide (m.proyecto = p))
            [(⟨u', p', r.rid⟩ : Participa)] = 0 := by
          rw [List.countP_eq_zero]
          intro m hm hpm
          simp only [List.mem_singleton] at hm
          subst hm
          simp only [Bool.and_eq_true, decide_eq_true_eq] at hpm
          exact hup ⟨hpm.1.symm, hpm.2.symm⟩
        omega

/-- Claim C5: starting from a state where a user holds at most one
membership in a project, any sequence of `asignar_rol` calls (for
arbitrary users, role names and projects) leaves that user with at most
one membership in that project. -/
theorem runAssigns_at_most_one_membership
    (ops : List (Nat × String × Nat)) (s : State) (u p : Nat)
    (h : countMemberships s u p ≤ 1) :
    countMemberships (runAssigns s ops) u p ≤ 1 := by
  induction ops generalizing s with
  | nil => exact h
  | cons op t ih =>
    unfold runAssigns
    rw [List.foldl_cons]
    unfold runAssigns at ih
    cases hcall : asignar_rol s op.1 op.2.1 op.2.2 with
    | ok s' =>
      simp only [hcall]
      exact ih s' (countMemberships_asignar_rol s s' u p op.1 op.2.2 op.2.1 h hcall)
    | error e =>
      simp only [hcall]
      exact ih s h

/-- Claim C5 witness. -/
theorem runAssigns_at_most_one_membership_witness :
    countMemberships
      (runAssigns stExample
        [(10, "Desarrolador", 0), (12, "Scrum master", 0), (10, "Interesado", 0)]) 10 0 ≤ 1 :=
  runAssigns_at_most_one_membership
    [(10, "Desarrolador", 0), (12, "Scrum master", 0), (10, "Interesado", 0)]
    stExample 10 0 (by decide)

/-- Claim C6: `quitar_rol` deletes exactly the user's memberships in the
project: a membership survives iff it is not the removed user's one in
that project; when the user has no membership there the whole state is
unchanged; the user table and the role table are untouched in every
case. -/
theorem quitar_rol_spec (s : State) (u p : Nat) :
    (∀ m : Participa, m ∈ (quitar_rol s u p).memberships ↔
        (m ∈ s.memberships ∧ ¬(m.user = u ∧ m.proyecto = p))) ∧
    ((¬ ∃ m ∈ s.memberships, m.user = u ∧ m.proyecto = p) → quitar_rol s u p = s) ∧
    (quitar_rol s u p).users = s.users ∧
    (quitar_rol s u p).roles = s.roles := by
  refine ⟨?_, ?_, rfl, rfl⟩
  · intro m
    unfold quitar_rol
    simp only [List.mem_filter, Bool.not_eq_true', Bool.and_eq_false_iff,
      decide_eq_false_iff_not]
    tauto
  · intro hnone
    unfold quitar_rol
    have : s.memberships.filter (fun m =>
        !(decide (m.user = u) && decide (m.proyecto = p))) = s.memberships := by
      rw [List.filter_eq_self]
      intro m hm
      simp only [Bool.not_eq_true', Bool.and_eq_false_iff, decide_eq_false_iff_not]
      by_contra hcontra
      push_neg at hcontra
      exact hnone ⟨m, hm, hcontra⟩
    rw [this]

/-- Claim C6 witness: removing a non-member is a no-op. -/
theorem quitar_rol_spec_witness : quitar_rol stExample 12 0 = stExample :=
  (quitar_rol_spec stExample 12 0).2.1 (by decide)

/-- Claim C7: deleting a role fails with `RoleInUse` exactly while some
membership references it; otherwise it succeeds, removes exactly that
role, and leaves the membership and user tables unchanged. -/
theorem deleteRole_spec (s : State) (rid : Nat) :
    ((∃ m ∈ s.memberships, m.role = rid) →
      deleteRole s rid = Except.error Err.RoleInUse) ∧
    ((∀ m ∈ s.memberships, m.role ≠ rid) →
      ∃ s', deleteRole s rid = Except.ok s' ∧
        (∀ r : Role, r ∈ s'.roles ↔ (r ∈ s.roles ∧ r.rid ≠ rid)) ∧
        s'.memberships = s.memberships ∧
        s'.users = s.users) := by
  constructor
  · rintro ⟨m, hm, hrole⟩
    unfold deleteRole
    rw [if_pos]
    rw [List.any_eq_true]
    exact ⟨m, hm, by simpa using hrole⟩
  · intro hnone
    unfold deleteRole
    rw [if_neg]
    · refine ⟨_, rfl, ?_, rfl, rfl⟩
      intro r
      simp [List.mem_filter]
    · simp only [List.any_eq_true, not_exists]
      intro m
      rintro ⟨hm, hrole⟩
      exact hnone m hm (by simpa using hrole)

/-- Claim C7 witness: role 1 is referenced and cannot be deleted; role 3
is unreferenced and is removed. -/
theorem deleteRole_spec_witness :
    deleteRole stExample 1 = Except.error Err.RoleInUse ∧
    ∃ s', deleteRole stExample 3 = Except.ok s' ∧
      (∀ r : Role, r ∈ s'.roles ↔ (r ∈ stExample.roles ∧ r.rid ≠ 3)) ∧
      s'.memberships = stExample.memberships ∧
      s'.users = stExample.users :=
  ⟨(deleteRole_spec stExample 1).1 ⟨⟨10, 0, 1⟩, by decide, rfl⟩,
   (deleteRole_spec stExample 3).2 (by decide)⟩

/-- In a list where at most one element satisfies a predicate, any two
satisfying members are equal. -/
theorem eq_of_countP_le_one {α : Type} (prd : α → Bool) (l : List α)
    (h : l.countP prd ≤ 1) (a b : α) (ha : a ∈ l) (hb : b ∈ l)
    (hpa : prd a = true) (hpb : prd b = true) : a = b := by
  induction l with
  | nil => cases ha
  | cons x t ih =>
    rw [List.countP_cons] at h
    rcases List.mem_cons.mp ha with rfl | hat
    · rcases List.mem_cons.mp hb with rfl | hbt
      · rfl
      · exfalso
        have hp : 0 < t.countP prd := List.countP_pos_iff.mpr ⟨b, hbt, hpb⟩
        simp only [hpa, if_true] at h
        omega
    · rcases List.mem_cons.mp hb with rfl | hbt
      · exfalso
        have hp : 0 < t.countP prd := List.countP_pos_iff.mpr ⟨a, hat, hpa⟩
        simp only [hpb, if_true] at h
        omega
      · exact ih (Nat.le_trans (Nat.le_add_right _ _) h) hat hbt

/-- Claim C8: `vista` is granted exactly to project members; any other
capability is granted exactly when the user's membership's role holds
it; a user with no membership is denied every project-scoped capability
(the query is a total function, so it never raises). -/
theorem hasProjectCapability_spec (s : State) (u p : Nat)
    (h1 : countMemberships s u p ≤ 1)
    (h2 : (s.roles.map Role.rid).Nodup) :
    (hasProjectCapability s u p Cap.vista = true ↔
      ∃ m ∈ s.memberships, m.user = u ∧ m.proyecto = p) ∧
    (∀ c : Cap, c ≠ Cap.vista →
      (hasProjectCapability s u p c = true ↔
        ∃ m ∈ s.memberships, m.user = u ∧ m.proyecto = p ∧
          ∃ r ∈ s.roles, r.rid = m.role ∧ c ∈ r.perms)) ∧
    ((¬ ∃ m ∈ s.memberships, m.user = u ∧ m.proyecto = p) →
      ∀ c : Cap, hasProjectCapability s u p c = false) := by
  unfold countMemberships at h1
  cases hfind : s.memberships.find?
      (fun m => decide (m.user = u) && decide (m.proyecto = p)) with
  | none =>
    have hno : ¬ ∃ m ∈ s.memberships, m.user = u ∧ m.proyecto = p := by
      rintro ⟨m, hm, hmu, hmp⟩
      have := List.find?_eq_none.mp hfind m hm
      simp [hmu, hmp] at this
    refine ⟨?_, ?_, ?_⟩
    · unfold hasProjectCapability
      rw [hfind]
      exact iff_of_false (by simp) hno
    · intro c hc
      unfold hasProjectCapability
      rw [hfind]
      refine iff_of_false (by simp) ?_
      rintro ⟨m, hm, hmu, hmp, hrest⟩
      exact hno ⟨m, hm, hmu, hmp⟩
    · intro hn c
      unfold hasProjectCapability
      rw [hfind]
  | some m0 =>
    have hm0mem : m0 ∈ s.memberships := List.mem_of_find?_eq_some hfind
    have hm0pred := List.find?_some hfind
    rw [Bool.and_eq_true, decide_eq_true_eq, decide_eq_true_eq] at hm0pred
    obtain ⟨hm0u, hm0p⟩ := hm0pred
    refine ⟨?_, ?_, ?_⟩
    · unfold hasProjectCapability
      rw [hfind]
      exact iff_of_true (by simp) ⟨m0, hm0mem, hm0u, hm0p⟩
    · intro c hc
      unfold hasProjectCapability
      rw [hfind]
      dsimp only
      rw [if_neg hc]
      cases hrole : findRole s m0.role with
      | none =>
        refine iff_of_false (by simp) ?_
        rintro ⟨m, hm, hmu, hmp, r, hr, hrid, hcperm⟩
        have hmeq : m = m0 := eq_of_countP_le_one _ _ h1 m m0 hm hm0mem
          (by simp [hmu, hmp]) (by simp [hm0u, hm0p])
        subst hmeq
        have hfound : findRole s m.role = some r := by
          unfold findRole
          rw [← hrid]
          exact find?_rid_of_nodup s.roles r h2 hr
        rw [hfound] at hrole
        cases hrole
      | some r0 =>
        have hr0mem : r0 ∈ s.roles := List.mem_of_find?_eq_some hrole
        have hr0rid := List.find?_some hrole
        rw [decide_eq_true_eq] at hr0rid
        constructor
        · intro hcperm
          rw [decide_eq_true_eq] at hcperm
          exact ⟨m0, hm0mem, hm0u, hm0p, r0, hr0mem, hr0rid, hcperm⟩
        · rintro ⟨m, hm, hmu, hmp, r, hr, hrid, hcperm⟩
          have hmeq : m = m0 := eq_of_countP_le_one _ _ h1 m m0 hm hm0mem
            (by simp [hmu, hmp]) (by simp [hm0u, hm0p])
          subst hmeq
          have hfound : findRole s m.role = some r := by
            unfold findRole
            rw [← hrid]
            exact find?_rid_of_nodup s.roles r h2 hr
          rw [hfound] at hrole
          injection hrole with hr0eq
          subst hr0eq
          simpa using hcperm
    · intro hno
      exact absurd ⟨m0, hm0mem, hm0u, hm0p⟩ hno

/-- Claim C8 witness. -/
theorem hasProjectCapability_spec_witness :
    (hasProjectCapability stExample 10 0 Cap.vista = true ↔
      ∃ m ∈ stExample.memberships, m.user = 10 ∧ m.proyecto = 0) ∧
    (∀ c : Cap, c ≠ Cap.vista →
      (hasProjectCapability stExample 10 0 c = true ↔
        ∃ m ∈ stExample.memberships, m.user = 10 ∧ m.proyecto = 0 ∧
          ∃ r ∈ stExample.roles, r.rid = m.role ∧ c ∈ r.perms)) ∧
    ((¬ ∃ m ∈ stExample.memberships, m.user = 10 ∧ m.proyecto = 0) →
      ∀ c : Cap, hasProjectCapability stExample 10 0 c = false) :=
  hasProjectCapability_spec stExample 10 0 (by decide) (by decide)

/-- Claim C9: when the acting user edits their own row of the
team-administration page, the selectable roles are exactly the project's
roles holding `administrar_equipo` (so any role assigned to oneself
through the form holds it); for any other row all of the project's roles
are selectable. -/
theorem selectableRoles_spec (s : State) (p uA uI : Nat) (r : Role) :
    (r ∈ selectableRoles s uA uA p ↔
      (r ∈ s.roles ∧ r.proyecto = p ∧ Cap.administrar_equipo ∈ r.perms)) ∧
    (r ∈ selectableRoles s uA uA p → Cap.administrar_equipo ∈ r.perms) ∧
    (uI ≠ uA →
      (r ∈ selectableRoles s uI uA p ↔ (r ∈ s.roles ∧ r.proyecto = p))) := by
  have hself : r ∈ selectableRoles s uA uA p ↔
      (r ∈ s.roles ∧ r.proyecto = p ∧ Cap.administrar_equipo ∈ r.perms) := by
    unfold selectableRoles
    rw [if_pos rfl]
    simp [List.mem_filter, and_assoc]
  refine ⟨hself, fun h => (hself.mp h).2.2, ?_⟩
  intro hne
  unfold selectableRoles
  rw [if_neg hne]
  simp [List.mem_filter]

/-- Claim C9 witness: a different user's row offers all project roles. -/
theorem selectableRoles_spec_witness :
    rolB ∈ selectableRoles stExample 11 10 0 ↔
      (rolB ∈ stExample.roles ∧ rolB.proyecto = 0) :=
  (selectableRoles_spec stExample 0 10 11 rolB).2.2 (by decide)
